import Mathlib

/-!
Verification of the KubeMinder API gateway (`backend/api_gateway/main.py`):
a shallow embedding of its two stateful operations — the queue relay
`forward_plans_to_approved` and the agent `health_check` aggregator —
together with theorems about the behaviours the design document claims.
-/

set_option autoImplicit false

namespace Kbd

/-! ## JSON values and plan payloads

A relayed plan is a JSON object: a string-keyed mapping.  We embed JSON
scalars as `JVal` and an object as an association list `Plan`; `json.loads`
on a dict produces unique keys, and both lookup and assignment below read /
rewrite the first occurrence of a key, matching Python dict semantics. -/

inductive JVal where
  | str  : String → JVal
  | num  : Int → JVal
  | bool : Bool → JVal
  | null : JVal
  deriving DecidableEq, Repr

/-- A decoded JSON object (Python dict): insertion-ordered key/value pairs. -/
def Plan := List (String × JVal)

instance : DecidableEq Plan := inferInstanceAs (DecidableEq (List (String × JVal)))

/-- `p[k]` lookup on a Python dict, embedded on the association list. -/
def getKey (p : Plan) (k : String) : Option JVal :=
  match p with
  | [] => none
  | (k₁, v) :: rest => if k₁ = k then some v else getKey rest k

/-- `p[k] = v` assignment on a Python dict: overwrite the existing binding
in place, or append a new one (insertion order preserved). -/
def setKey (p : Plan) (k : String) (v : JVal) : Plan :=
  match p with
  | [] => [(k, v)]
  | (k₁, v₁) :: rest => if k₁ = k then (k, v) :: rest else (k₁, v₁) :: setKey rest k v

/-- The mutation the relay applies to each decoded plan
(`plan["status"] = "approved"; plan["approved_by"] = "gateway"`). -/
def forwardedPlan (p : Plan) : Plan :=
  setKey (setKey p "status" (.str "approved")) "approved_by" (.str "gateway")

/-! ## Wire messages and `json.loads`

A message body fetched from the source queue either fails `json.loads`
(`malformed`), parses to a JSON value that is not an object (`nonDict` —
the subsequent `plan["status"] = ...` then raises `TypeError`), or parses
to an object (`dict`).  We embed the body by its parse, since the JSON
library itself is external to the repository. -/

inductive WireMsg where
  | malformed : String → WireMsg
  | nonDict   : JVal → WireMsg
  | dict      : Plan → WireMsg
  deriving DecidableEq

/-- Result of a successful `json.loads`. -/
inductive PyVal where
  | dict  : Plan → PyVal
  | other : JVal → PyVal
  deriving DecidableEq

/-- `json.loads(body)`: `none` models the raised decode exception. -/
def json_loads : WireMsg → Option PyVal
  | .malformed _ => none
  | .nonDict v   => some (.other v)
  | .dict p      => some (.dict p)

/-! ## The relay pass

`relayLoop` embeds the `while True` drain loop of
`forward_plans_to_approved`.  The source queue is the list of remaining
messages (FIFO); `basic_get` takes the head; the delivery tag of a message
is its fetch index.  `pubFails i` says whether the `i`-th
`basic_publish` call of the pass raises.  The loop records broker
interactions as an event trace. -/

inductive Event where
  | fetched   : ℕ → Event
  | published : ℕ → Plan → Event
  | ackedMsg  : ℕ → Event
  deriving DecidableEq

/-- Delivery tag an event concerns. -/
def Event.tag : Event → ℕ
  | .fetched t => t
  | .published t _ => t
  | .ackedMsg t => t

/-- Is the event a fetch? -/
def Event.isFetch : Event → Bool
  | .fetched _ => true
  | _ => false

/-- Is the event a publish? -/
def Event.isPub : Event → Bool
  | .published _ _ => true
  | _ => false

/-- Is the event an acknowledgement? -/
def Event.isAck : Event → Bool
  | .ackedMsg _ => true
  | _ => false

structure LoopResult where
  /-- Source-queue contents when the loop exits (an un-acked fetched
  message is requeued by the broker, so it reappears at the front). -/
  source : List WireMsg
  /-- Payloads appended to the destination queue, in publish order. -/
  dest : List Plan
  /-- Value of `forwarded_count` when the loop exits. -/
  count : ℕ
  /-- Did an uncaught exception (publish failure, or `TypeError` from
  mutating a non-dict) abort the loop? -/
  aborted : Bool
  /-- Broker interactions, in program order. -/
  trace : List Event
  deriving DecidableEq

/-- One relay drain loop over the remaining source messages.  `tag` is the
delivery tag the next fetch receives, `pubIdx` counts publish attempts. -/
def relayLoop (pubFails : ℕ → Bool) : List WireMsg → ℕ → ℕ → LoopResult
  | [], _, _ => ⟨[], [], 0, false, []⟩
  | m :: rest, tag, pubIdx =>
    match json_loads m with
    | none =>
      -- decode failure: ack (remove) the malformed message and continue
      let r := relayLoop pubFails rest (tag + 1) pubIdx
      ⟨r.source, r.dest, r.count, r.aborted, .fetched tag :: .ackedMsg tag :: r.trace⟩
    | some (.other _) =>
      -- `plan["status"] = ...` raises TypeError: loop aborts, message un-acked
      ⟨m :: rest, [], 0, true, [.fetched tag]⟩
    | some (.dict p) =>
      if pubFails pubIdx then
        -- basic_publish raises: loop aborts, message un-acked
        ⟨m :: rest, [], 0, true, [.fetched tag]⟩
      else
        let r := relayLoop pubFails rest (tag + 1) (pubIdx + 1)
        ⟨r.source, forwardedPlan p :: r.dest, r.count + 1, r.aborted,
          .fetched tag :: .published tag (forwardedPlan p) :: .ackedMsg tag :: r.trace⟩

/-- HTTP-level outcome of the trigger operation: the success body carries
`forwarded_count`; `HTTPException(500, detail)` carries only a detail
string. -/
inductive ForwardResponse where
  | success   : ℕ → ForwardResponse
  | httpError : ℕ → String → ForwardResponse
  deriving DecidableEq

structure ForwardRun where
  response : ForwardResponse
  /-- Source queue after the pass. -/
  source : List WireMsg
  /-- Destination queue after the pass (it starts empty in our runs). -/
  dest : List Plan
  /-- Broker interactions of the pass. -/
  trace : List Event
  /-- Was a broker connection opened and then never closed? -/
  connectionLeftOpen : Bool
  deriving DecidableEq

/-- The `POST /api/plans/forward-to-approved` handler.  `connectFails`
models `pika.BlockingConnection` raising (with message `connectErr`);
`abortErr` is the message of whatever exception aborts the loop.  The
`except` branch raises `HTTPException(500, ...)` without closing the
connection; only the straight-line path reaches `connection.close()`. -/
def forward_plans_to_approved (connectFails : Bool) (connectErr abortErr : String)
    (pubFails : ℕ → Bool) (source : List WireMsg) : ForwardRun :=
  if connectFails then
    ⟨.httpError 500 ("Failed to forward plans: " ++ connectErr), source, [], [], false⟩
  else
    let r := relayLoop pubFails source 0 0
    if r.aborted then
      ⟨.httpError 500 ("Failed to forward plans: " ++ abortErr), r.source, r.dest, r.trace, true⟩
    else
      ⟨.success r.count, r.source, r.dest, r.trace, false⟩

/-- The well-formed (JSON object) payloads of a message list, in order. -/
def wellFormedPlans : List WireMsg → List Plan
  | [] => []
  | .dict p :: rest => p :: wellFormedPlans rest
  | _ :: rest => wellFormedPlans rest

/-- Does the list avoid the valid-JSON-but-not-an-object case?  (Such
messages crash the pass; the claims speak only of well-formed and
malformed ones.) -/
def noNonDict (msgs : List WireMsg) : Bool :=
  msgs.all fun m => match m with | .nonDict _ => false | _ => true

/-! ## The health aggregator

`GET /api/health` iterates `AGENT_ENDPOINTS.items()` in insertion order,
awaiting `client.get(url + "/health", timeout=5.0)` for one agent at a
time.  We embed the environment as a map from agent name to the outcome of
its probe, and additionally a latency map to state timing facts about the
sequential `await` loop. -/

def AGENT_ENDPOINTS : List (String × String) :=
  [("planner", "http://localhost:8001"),
   ("collaborator", "http://localhost:8002"),
   ("actor", "http://localhost:8003"),
   ("learner", "http://localhost:8004")]

/-- The configured agent names, in iteration order. -/
def agentNames : List String := AGENT_ENDPOINTS.map Prod.fst

/-- Outcome of one HTTP probe: a response whose body parsed as JSON,
a timeout exception, or a connection error — each exception carrying its
`str(e)` description. -/
inductive ProbeResult where
  | ok        : JVal → ProbeResult
  | timeout   : String → ProbeResult
  | connError : String → ProbeResult
  deriving DecidableEq

/-- Per-agent entry the handler stores into `health_status`. -/
inductive HealthOutcome where
  | healthy   : JVal → HealthOutcome
  | unhealthy : String → HealthOutcome
  deriving DecidableEq

/-- The `try/except` around one probe: a response yields
`{"status": "healthy", "response": ...}`; any exception is caught and
yields `{"status": "unhealthy", "error": str(e)}`. -/
def probeOutcome : ProbeResult → HealthOutcome
  | .ok v        => .healthy v
  | .timeout e   => .unhealthy e
  | .connError e => .unhealthy e

structure HealthResponse where
  gateway : String
  agents : List (String × HealthOutcome)
  timestamp : Int
  deriving DecidableEq

/-- The `GET /api/health` handler. `probe` gives each agent's probe
outcome; `now` is `asyncio.get_event_loop().time()`. -/
def health_check (probe : String → ProbeResult) (now : Int) : HealthResponse :=
  ⟨"healthy", AGENT_ENDPOINTS.map fun a => (a.1, probeOutcome (probe a.1)), now⟩

/-- The per-probe timeout the handler passes to `client.get` (seconds). -/
def PROBE_TIMEOUT : ℕ := 5

/-- How long the `await client.get(...)` for one agent takes: the
backend's latency, cut off at the probe's own 5-second timeout. -/
def probeDuration (latency : String → ℕ) (a : String) : ℕ :=
  min (latency a) PROBE_TIMEOUT

/-- When the probe of agent `a` is issued, given the iteration order
`agents`: the handler awaits each earlier agent's probe to completion
before issuing the next one, so probe `a` starts at the sum of the
durations of the agents before it. -/
def probeStart (latency : String → ℕ) (agents : List String) (a : String) : ℕ :=
  match agents with
  | [] => 0
  | b :: rest =>
    if b = a then 0 else probeDuration latency b + probeStart latency rest a

/-! ## Key-level lemmas about dict assignment -/

theorem getKey_setKey_same (p : Plan) (k : String) (v : JVal) :
    getKey (setKey p k v) k = some v := by
  induction p with
  | nil => simp [getKey, setKey]
  | cons kv rest ih =>
    obtain ⟨k₁, v₁⟩ := kv
    by_cases h : k₁ = k
    · simp [getKey, setKey, h]
    · simp [getKey, setKey, h, ih]

theorem getKey_setKey_other (p : Plan) (k k₁ : String) (v : JVal) (h : k₁ ≠ k) :
    getKey (setKey p k v) k₁ = getKey p k₁ := by
  induction p with
  | nil => simp [getKey, setKey, Ne.symm h]
  | cons kv rest ih =>
    obtain ⟨k₂, v₂⟩ := kv
    by_cases h₂ : k₂ = k
    · subst h₂
      simp [getKey, setKey, Ne.symm h]
    · by_cases h₃ : k₂ = k₁ <;> simp [getKey, setKey, h₂, h₃, h, ih]

theorem getKey_forwardedPlan_status (p : Plan) :
    getKey (forwardedPlan p) "status" = some (.str "approved") := by
  unfold forwardedPlan
  rw [getKey_setKey_other _ _ _ _ (by decide), getKey_setKey_same]

theorem getKey_forwardedPlan_approved_by (p : Plan) :
    getKey (forwardedPlan p) "approved_by" = some (.str "gateway") := by
  unfold forwardedPlan
  rw [getKey_setKey_same]

theorem getKey_forwardedPlan_other (p : Plan) (k : String)
    (h₁ : k ≠ "status") (h₂ : k ≠ "approved_by") :
    getKey (forwardedPlan p) k = getKey p k := by
  unfold forwardedPlan
  rw [getKey_setKey_other _ _ _ _ h₂, getKey_setKey_other _ _ _ _ h₁]

/-! ## Loop lemmas -/

/-- Every payload the loop publishes is the mutation of a decoded source
object. -/
theorem relayLoop_dest_mem (pf : ℕ → Bool) (msgs : List WireMsg) :
    ∀ tag pubIdx q, q ∈ (relayLoop pf msgs tag pubIdx).dest →
      ∃ p, WireMsg.dict p ∈ msgs ∧ q = forwardedPlan p := by
  induction msgs with
  | nil => intro tag pubIdx q hq; simp [relayLoop] at hq
  | cons m rest ih =>
    intro tag pubIdx q hq
    match m with
    | .malformed raw =>
      simp only [relayLoop, json_loads] at hq
      obtain ⟨p, hp, hqp⟩ := ih (tag + 1) pubIdx q hq
      exact ⟨p, List.mem_cons_of_mem _ hp, hqp⟩
    | .nonDict v =>
      simp [relayLoop, json_loads] at hq
    | .dict p =>
      simp only [relayLoop, json_loads] at hq
      by_cases hpf : pf pubIdx
      · simp [hpf] at hq
      · simp only [hpf, if_false, Bool.false_eq_true, List.mem_cons] at hq
        rcases hq with hq | hq
        · exact ⟨p, List.mem_cons_self _ _, hq⟩
        · obtain ⟨p₁, hp₁, hqp₁⟩ := ih (tag + 1) (pubIdx + 1) q hq
          exact ⟨p₁, List.mem_cons_of_mem _ hp₁, hqp₁⟩

/-- Delivery tags in the trace are at least the loop's starting tag. -/
theorem relayLoop_tag_le (pf : ℕ → Bool) (msgs : List WireMsg) :
    ∀ tag pubIdx e, e ∈ (relayLoop pf msgs tag pubIdx).trace → tag ≤ e.tag := by
  induction msgs with
  | nil => intro tag pubIdx e he; simp [relayLoop] at he
  | cons m rest ih =>
    intro tag pubIdx e he
    match m with
    | .malformed raw =>
      simp only [relayLoop, json_loads, List.mem_cons] at he
      rcases he with rfl | rfl | he
      · exact le_refl _
      · exact le_refl _
      · exact le_trans (Nat.le_succ _) (ih (tag + 1) pubIdx e he)
    | .nonDict v =>
      simp only [relayLoop, json_loads, List.mem_cons, List.not_mem_nil, or_false] at he
      subst he; exact le_refl _
    | .dict p =>
      simp only [relayLoop, json_loads] at he
      by_cases hpf : pf pubIdx
      · simp only [hpf, if_true, List.mem_cons, List.not_mem_nil, or_false] at he
        subst he; exact le_refl _
      · simp only [hpf, if_false, Bool.false_eq_true, List.mem_cons] at he
        rcases he with rfl | rfl | rfl | he
        · exact le_refl _
        · exact le_refl _
        · exact le_refl _
        · exact le_trans (Nat.le_succ _) (ih (tag + 1) (pubIdx + 1) e he)

/-- A drain over a queue of objects and undecodable bodies, with every
publish succeeding: everything is consumed, the objects are forwarded in
order, and the count is the number of objects. -/
theorem relayLoop_noFail (src : List WireMsg) :
    ∀ tag pubIdx, noNonDict src = true →
      (relayLoop (fun _ => false) src tag pubIdx).source = [] ∧
      (relayLoop (fun _ => false) src tag pubIdx).dest
        = (wellFormedPlans src).map forwardedPlan ∧
      (relayLoop (fun _ => false) src tag pubIdx).count
        = (wellFormedPlans src).length ∧
      (relayLoop (fun _ => false) src tag pubIdx).aborted = false := by
  induction src with
  | nil => intro tag pubIdx _; simp [relayLoop, wellFormedPlans]
  | cons m rest ih =>
    intro tag pubIdx h
    match m with
    | .malformed raw =>
      have h₁ : noNonDict rest = true := by
        simpa [noNonDict] using (by simpa [noNonDict] using h : _)
      obtain ⟨hs, hd, hc, ha⟩ := ih (tag + 1) pubIdx h₁
      simp [relayLoop, json_loads, wellFormedPlans, hs, hd, hc, ha]
    | .nonDict v =>
      simp [noNonDict] at h
    | .dict p =>
      have h₁ : noNonDict rest = true := by
        simpa [noNonDict] using (by simpa [noNonDict] using h : _)
      obtain ⟨hs, hd, hc, ha⟩ := ih (tag + 1) (pubIdx + 1) h₁
      simp [relayLoop, json_loads, wellFormedPlans, hs, hd, hc, ha]

/-- A drain whose `(pre.length)`-th publish attempt fails, over a source
of `pre.length` objects followed by object `m`:  the loop forwards `pre`,
then aborts on `m`, leaving it (and everything behind it) in the source. -/
theorem relayLoop_pubFail (pf : ℕ → Bool) (m : Plan) (post : List WireMsg) :
    ∀ (pre : List Plan) tag pubIdx,
      (∀ j, j < pre.length → pf (pubIdx + j) = false) →
      pf (pubIdx + pre.length) = true →
      (relayLoop pf (pre.map WireMsg.dict ++ WireMsg.dict m :: post) tag pubIdx).source
        = WireMsg.dict m :: post ∧
      (relayLoop pf (pre.map WireMsg.dict ++ WireMsg.dict m :: post) tag pubIdx).dest
        = pre.map forwardedPlan ∧
      (relayLoop pf (pre.map WireMsg.dict ++ WireMsg.dict m :: post) tag pubIdx).count
        = pre.length ∧
      (relayLoop pf (pre.map WireMsg.dict ++ WireMsg.dict m :: post) tag pubIdx).aborted
        = true := by
  intro pre
  induction pre with
  | nil =>
    intro tag pubIdx _ hfail
    simp only [List.length_nil, Nat.add_zero] at hfail
    simp [relayLoop, json_loads, hfail]
  | cons p pre ih =>
    intro tag pubIdx hok hfail
    have h₀ : pf pubIdx = false := by
      have := hok 0 (by simp)
      simpa using this
    have hok₁ : ∀ j, j < pre.length → pf (pubIdx + 1 + j) = false := by
      intro j hj
      have := hok (j + 1) (by simpa using Nat.succ_lt_succ hj)
      simpa [Nat.add_assoc, Nat.add_comm 1 j] using this
    have hfail₁ : pf (pubIdx + 1 + pre.length) = true := by
      simpa [Nat.add_assoc, Nat.add_comm 1 pre.length] using hfail
    obtain ⟨hs, hd, hc, ha⟩ := ih (tag + 1) (pubIdx + 1) hok₁ hfail₁
    simp [relayLoop, json_loads, h₀, hs, hd, hc, ha]

/-- Number of events of the kind chosen by `sel` that concern tag `t`. -/
def evCount (sel : Event → Bool) (tr : List Event) (t : ℕ) : ℕ :=
  (tr.filter fun e => sel e && e.tag == t).length

theorem evCount_nil (sel : Event → Bool) (t : ℕ) : evCount sel [] t = 0 := rfl

theorem evCount_cons (sel : Event → Bool) (e : Event) (tr : List Event) (t : ℕ) :
    evCount sel (e :: tr) t
      = (if (sel e && e.tag == t) = true then 1 else 0) + evCount sel tr t := by
  simp only [evCount, List.filter_cons]
  split <;> simp [Nat.add_comm]

/-- No event of a loop started at tag `tag` concerns an earlier tag. -/
theorem evCount_zero_of_lt (sel : Event → Bool) (pf : ℕ → Bool) (msgs : List WireMsg)
    (tag pubIdx t : ℕ) (h : t < tag) :
    evCount sel (relayLoop pf msgs tag pubIdx).trace t = 0 := by
  have : ((relayLoop pf msgs tag pubIdx).trace.filter fun e => sel e && e.tag == t) = [] := by
    rw [List.filter_eq_nil_iff]
    intro e he
    have htag := relayLoop_tag_le pf msgs tag pubIdx e he
    have : (e.tag == t) = false := by
      rw [beq_eq_false_iff_ne]
      omega
    simp [this]
  simp [evCount, this]

/-- Per delivery tag, a relay pass fetches at most once, publishes at most
once and acknowledges at most once. -/
theorem relayLoop_at_most_once (pf : ℕ → Bool) (msgs : List WireMsg) :
    ∀ tag pubIdx t,
      evCount Event.isFetch (relayLoop pf msgs tag pubIdx).trace t ≤ 1 ∧
      evCount Event.isPub (relayLoop pf msgs tag pubIdx).trace t ≤ 1 ∧
      evCount Event.isAck (relayLoop pf msgs tag pubIdx).trace t ≤ 1 := by
  induction msgs with
  | nil => intro tag pubIdx t; simp [relayLoop, evCount_nil]
  | cons m rest ih =>
    intro tag pubIdx t
    match m with
    | .malformed raw =>
      simp only [relayLoop, json_loads]
      by_cases ht : t = tag
      · subst ht
        have h₀ := evCount_zero_of_lt (t := t)
        simp [evCount_cons, Event.isFetch, Event.isAck, Event.isPub, Event.tag,
          evCount_zero_of_lt _ pf rest (t + 1) pubIdx t (Nat.lt_succ_self t)]
      · have hne : (tag == t) = false := beq_eq_false_iff_ne.mpr (Ne.symm ht)
        simp [evCount_cons, Event.isFetch, Event.isAck, Event.isPub, Event.tag, hne,
          ih (tag + 1) pubIdx t]
    | .nonDict v =>
      simp only [relayLoop, json_loads]
      by_cases ht : t = tag
      · subst ht
        simp [evCount_cons, evCount_nil, Event.isFetch, Event.isAck, Event.isPub, Event.tag]
      · have hne : (tag == t) = false := beq_eq_false_iff_ne.mpr (Ne.symm ht)
        simp [evCount_cons, evCount_nil, Event.isFetch, Event.isAck, Event.isPub,
          Event.tag, hne]
    | .dict p =>
      simp only [relayLoop, json_loads]
      by_cases hpf : pf pubIdx
      · simp only [hpf, if_true]
        by_cases ht : t = tag
        · subst ht
          simp [evCount_cons, evCount_nil, Event.isFetch, Event.isAck, Event.isPub, Event.tag]
        · have hne : (tag == t) = false := beq_eq_false_iff_ne.mpr (Ne.symm ht)
          simp [evCount_cons, evCount_nil, Event.isFetch, Event.isAck, Event.isPub,
            Event.tag, hne]
      · simp only [hpf, if_false, Bool.false_eq_true]
        by_cases ht : t = tag
        · subst ht
          simp [evCount_cons, Event.isFetch, Event.isAck, Event.isPub, Event.tag,
            evCount_zero_of_lt _ pf rest (t + 1) (pubIdx + 1) t (Nat.lt_succ_self t)]
        · have hne : (tag == t) = false := beq_eq_false_iff_ne.mpr (Ne.symm ht)
          simp [evCount_cons, Event.isFetch, Event.isAck, Event.isPub, Event.tag, hne,
            ih (tag + 1) (pubIdx + 1) t]

/-- The acknowledgement of a decoded (well-formed) message is only ever
issued after the successful publish of its mutated payload: whenever the
trace acknowledges the message at source position `i`, the publish of its
payload occurs earlier in the trace. -/
theorem relayLoop_ack_after_publish (pf : ℕ → Bool) (msgs : List WireMsg) :
    ∀ tag pubIdx i p (h : i < msgs.length),
      msgs.get ⟨i, h⟩ = WireMsg.dict p →
      Event.ackedMsg (tag + i) ∈ (relayLoop pf msgs tag pubIdx).trace →
      List.Sublist [Event.published (tag + i) (forwardedPlan p), Event.ackedMsg (tag + i)]
        (relayLoop pf msgs tag pubIdx).trace := by
  induction msgs with
  | nil => intro tag pubIdx i p h; exact absurd h (by simp)
  | cons m rest ih =>
    intro tag pubIdx i p h hget hmem
    match i with
    | 0 =>
      simp only [List.get] at hget
      subst hget
      simp only [relayLoop, json_loads] at hmem ⊢
      by_cases hpf : pf pubIdx
      · simp [hpf] at hmem
      · simp only [hpf, if_false, Bool.false_eq_true, Nat.add_zero] at hmem ⊢
        exact List.Sublist.cons _
          (List.Sublist.cons₂ _ (List.Sublist.cons₂ _ (List.nil_sublist _)))
    | j + 1 =>
      have hj : j < rest.length := by simp at h; omega
      have hrest : rest.get ⟨j, hj⟩ = WireMsg.dict p := hget
      have harith : tag + (j + 1) = (tag + 1) + j := by omega
      match m with
      | .malformed raw =>
        simp only [relayLoop, json_loads, List.mem_cons] at hmem ⊢
        rcases hmem with heq | heq | hmem
        · exact Event.noConfusion heq
        · exact absurd (Event.ackedMsg.inj heq) (by omega)
        · have := ih (tag + 1) pubIdx j p hj hrest (by rw [← harith]; exact hmem)
          rw [← harith] at this
          exact List.Sublist.cons _ (List.Sublist.cons _ this)
      | .nonDict v =>
        simp [relayLoop, json_loads] at hmem
      | .dict p₁ =>
        simp only [relayLoop, json_loads] at hmem ⊢
        by_cases hpf : pf pubIdx
        · simp [hpf] at hmem
        · simp only [hpf, if_false, Bool.false_eq_true, List.mem_cons] at hmem ⊢
          rcases hmem with heq | heq | heq | hmem
          · exact Event.noConfusion heq
          · exact Event.noConfusion heq
          · exact absurd (Event.ackedMsg.inj heq) (by omega)
          · have := ih (tag + 1) (pubIdx + 1) j p hj hrest
              (by rw [← harith]; exact hmem)
            rw [← harith] at this
            exact List.Sublist.cons _
              (List.Sublist.cons _ (List.Sublist.cons _ this))

/-- The destination queue of a run with a live connection is the loop's. -/
theorem forward_dest (ce ae : String) (pf : ℕ → Bool) (src : List WireMsg) :
    (forward_plans_to_approved false ce ae pf src).dest = (relayLoop pf src 0 0).dest := by
  simp only [forward_plans_to_approved, Bool.false_eq_true, if_false]
  split <;> rfl

/-! ## Claim theorems -/

/-- C2: every payload a relay pass places in the destination queue is the
decoded source mapping with `status` set to `"approved"` and `approved_by`
set to `"gateway"`, those two keys overwritten regardless of their
original values, and every other key-value pair passed through
unmodified. -/
theorem forwarded_message_fields (cf : Bool) (ce ae : String) (pf : ℕ → Bool)
    (src : List WireMsg) (q : Plan)
    (hq : q ∈ (forward_plans_to_approved cf ce ae pf src).dest) :
    ∃ p, WireMsg.dict p ∈ src ∧ q = forwardedPlan p ∧
      getKey q "status" = some (JVal.str "approved") ∧
      getKey q "approved_by" = some (JVal.str "gateway") ∧
      ∀ k, k ≠ "status" → k ≠ "approved_by" → getKey q k = getKey p k := by
  have hq₁ : q ∈ (relayLoop pf src 0 0).dest := by
    match cf with
    | true => simp [forward_plans_to_approved] at hq
    | false => rwa [forward_dest] at hq
  obtain ⟨p, hp, rfl⟩ := relayLoop_dest_mem pf src 0 0 q hq₁
  exact ⟨p, hp, rfl, getKey_forwardedPlan_status p, getKey_forwardedPlan_approved_by p,
    fun k h₁ h₂ => getKey_forwardedPlan_other p k h₁ h₂⟩

/-- Witness for C2 at a concrete run: the source object
`{"id": 1, "status": "pending"}` reaches the destination as its mutation
by the relay. -/
theorem forwarded_message_fields_witness :
    ∃ p, WireMsg.dict p ∈ [WireMsg.dict [("id", JVal.num 1), ("status", JVal.str "pending")]] ∧
      forwardedPlan [("id", JVal.num 1), ("status", JVal.str "pending")] = forwardedPlan p ∧
      getKey (forwardedPlan [("id", JVal.num 1), ("status", JVal.str "pending")]) "status"
        = some (JVal.str "approved") ∧
      getKey (forwardedPlan [("id", JVal.num 1), ("status", JVal.str "pending")]) "approved_by"
        = some (JVal.str "gateway") ∧
      ∀ k, k ≠ "status" → k ≠ "approved_by" →
        getKey (forwardedPlan [("id", JVal.num 1), ("status", JVal.str "pending")]) k
          = getKey p k :=
  forwarded_message_fields false "conn" "err" (fun _ => false)
    [WireMsg.dict [("id", JVal.num 1), ("status", JVal.str "pending")]]
    (forwardedPlan [("id", JVal.num 1), ("status", JVal.str "pending")]) (by decide)

/-- C3: a message whose payload fails to decode is acknowledged (removed)
from the source, nothing is published for it, the forwarded count is not
incremented for it, and the pass continues with the remaining messages
exactly as it would have without the malformed message. -/
theorem malformed_message_skipped (pf : ℕ → Bool) (raw : String) (rest : List WireMsg)
    (tag pubIdx : ℕ) :
    (relayLoop pf (WireMsg.malformed raw :: rest) tag pubIdx).source
      = (relayLoop pf rest (tag + 1) pubIdx).source ∧
    (relayLoop pf (WireMsg.malformed raw :: rest) tag pubIdx).dest
      = (relayLoop pf rest (tag + 1) pubIdx).dest ∧
    (relayLoop pf (WireMsg.malformed raw :: rest) tag pubIdx).count
      = (relayLoop pf rest (tag + 1) pubIdx).count ∧
    (relayLoop pf (WireMsg.malformed raw :: rest) tag pubIdx).aborted
      = (relayLoop pf rest (tag + 1) pubIdx).aborted ∧
    Event.ackedMsg tag ∈ (relayLoop pf (WireMsg.malformed raw :: rest) tag pubIdx).trace ∧
    ∀ q, Event.published tag q ∉ (relayLoop pf (WireMsg.malformed raw :: rest) tag pubIdx).trace := by
  refine ⟨rfl, rfl, rfl, rfl, by simp [relayLoop, json_loads], fun q hq => ?_⟩
  simp only [relayLoop, json_loads, List.mem_cons] at hq
  rcases hq with heq | heq | hq
  · exact Event.noConfusion heq
  · exact Event.noConfusion heq
  · have := relayLoop_tag_le pf rest (tag + 1) pubIdx _ hq
    simp [Event.tag] at this

/-- Witness for C3 at a concrete run over a single malformed message. -/
theorem malformed_message_skipped_witness :
    (relayLoop (fun _ => false) [WireMsg.malformed "not-json"] 0 0).count
      = (relayLoop (fun _ => false) [] 1 0).count ∧
    Event.ackedMsg 0 ∈ (relayLoop (fun _ => false) [WireMsg.malformed "not-json"] 0 0).trace ∧
    ∀ q, Event.published 0 q
      ∉ (relayLoop (fun _ => false) [WireMsg.malformed "not-json"] 0 0).trace :=
  ⟨(malformed_message_skipped (fun _ => false) "not-json" [] 0 0).2.2.1,
   (malformed_message_skipped (fun _ => false) "not-json" [] 0 0).2.2.2.2.1,
   (malformed_message_skipped (fun _ => false) "not-json" [] 0 0).2.2.2.2.2⟩

/-- C4: in every relay pass each delivery tag is fetched at most once,
published at most once and acknowledged at most once (no retries), and the
acknowledgement of a successfully decoded message only ever occurs after
the publish of its mutated payload, earlier in the trace. -/
theorem ack_only_after_successful_publish (pf : ℕ → Bool) (msgs : List WireMsg) :
    (∀ t, evCount Event.isFetch (relayLoop pf msgs 0 0).trace t ≤ 1) ∧
    (∀ t, evCount Event.isPub (relayLoop pf msgs 0 0).trace t ≤ 1) ∧
    (∀ t, evCount Event.isAck (relayLoop pf msgs 0 0).trace t ≤ 1) ∧
    ∀ i p (h : i < msgs.length), msgs.get ⟨i, h⟩ = WireMsg.dict p →
      Event.ackedMsg i ∈ (relayLoop pf msgs 0 0).trace →
      List.Sublist [Event.published i (forwardedPlan p), Event.ackedMsg i]
        (relayLoop pf msgs 0 0).trace := by
  refine ⟨fun t => (relayLoop_at_most_once pf msgs 0 0 t).1,
    fun t => (relayLoop_at_most_once pf msgs 0 0 t).2.1,
    fun t => (relayLoop_at_most_once pf msgs 0 0 t).2.2,
    fun i p h hget hmem => ?_⟩
  have := relayLoop_ack_after_publish pf msgs 0 0 i p h hget (by simpa using hmem)
  simpa using this

/-- Witness for C4 at a concrete one-message run: the publish of the
mutated payload precedes the acknowledgement in the trace. -/
theorem ack_only_after_successful_publish_witness :
    List.Sublist [Event.published 0 (forwardedPlan [("id", JVal.num 1)]), Event.ackedMsg 0]
      (relayLoop (fun _ => false) [WireMsg.dict [("id", JVal.num 1)]] 0 0).trace :=
  (ack_only_after_successful_publish (fun _ => false)
      [WireMsg.dict [("id", JVal.num 1)]]).2.2.2 0 [("id", JVal.num 1)]
    (by decide) rfl (by decide)

/-- C6: with no broker failure, a single relay invocation over a finite
source of well-formed and malformed messages terminates, forwards exactly
the well-formed payloads in source order, removes every message from the
source, and returns the number of well-formed messages as its count. -/
theorem relay_drains_queue (src : List WireMsg) (ce ae : String)
    (h : noNonDict src = true) :
    (forward_plans_to_approved false ce ae (fun _ => false) src).response
      = ForwardResponse.success (wellFormedPlans src).length ∧
    (forward_plans_to_approved false ce ae (fun _ => false) src).source = [] ∧
    (forward_plans_to_approved false ce ae (fun _ => false) src).dest
      = (wellFormedPlans src).map forwardedPlan ∧
    (forward_plans_to_approved false ce ae (fun _ => false) src).connectionLeftOpen
      = false := by
  obtain ⟨hs, hd, hc, ha⟩ := relayLoop_noFail src 0 0 h
  simp [forward_plans_to_approved, hs, hd, hc, ha]

/-- Witness for C6: a two-message queue (one object, one undecodable body)
drains completely with forwarded count 1. -/
theorem relay_drains_queue_witness :
    noNonDict [WireMsg.dict [("id", JVal.num 1)], WireMsg.malformed "not-json"] = true ∧
    (forward_plans_to_approved false "conn" "err" (fun _ => false)
        [WireMsg.dict [("id", JVal.num 1)], WireMsg.malformed "not-json"]).response
      = ForwardResponse.success
          (wellFormedPlans
            [WireMsg.dict [("id", JVal.num 1)], WireMsg.malformed "not-json"]).length ∧
    (forward_plans_to_approved false "conn" "err" (fun _ => false)
        [WireMsg.dict [("id", JVal.num 1)], WireMsg.malformed "not-json"]).source = [] :=
  ⟨by decide,
   (relay_drains_queue [WireMsg.dict [("id", JVal.num 1)], WireMsg.malformed "not-json"]
      "conn" "err" (by decide)).1,
   (relay_drains_queue [WireMsg.dict [("id", JVal.num 1)], WireMsg.malformed "not-json"]
      "conn" "err" (by decide)).2.1⟩

/-- C10: when opening the broker connection fails, the trigger operation
surfaces an HTTP 500 error and neither queue changes — nothing is fetched,
published or acknowledged. -/
theorem connect_failure_atomic (ce ae : String) (pf : ℕ → Bool) (src : List WireMsg) :
    (forward_plans_to_approved true ce ae pf src).response
      = ForwardResponse.httpError 500 ("Failed to forward plans: " ++ ce) ∧
    (forward_plans_to_approved true ce ae pf src).source = src ∧
    (forward_plans_to_approved true ce ae pf src).dest = [] ∧
    (forward_plans_to_approved true ce ae pf src).trace = [] := by
  simp [forward_plans_to_approved]

/-- C1 counterexample: publish fails on the 2nd message (k = 2) of a
two-message pass; the surfaced response is `HTTPException(500, ...)`
whose detail is only the error string — it does not carry
`forwardedCount = k − 1 = 1` (in particular it is not a success response
with count 1), refuting the claim that the error is surfaced together with
the forwarded count. -/
theorem forward_pubfail_count_counterexample :
    (forward_plans_to_approved false "conn" "pub" (fun i => decide (1 ≤ i))
        [WireMsg.dict [("id", JVal.num 1)], WireMsg.dict [("id", JVal.num 2)]]).response
      ≠ ForwardResponse.success 1 ∧
    (forward_plans_to_approved false "conn" "pub" (fun i => decide (1 ≤ i))
        [WireMsg.dict [("id", JVal.num 1)], WireMsg.dict [("id", JVal.num 2)]]).response
      = ForwardResponse.httpError 500 "Failed to forward plans: pub" := by
  decide

/-- C1 (amended): if publish fails on the k-th message, the pass aborts
with the k-th message un-acknowledged (requeued in the source), messages
1..k−1 forwarded and not rolled back, and the internal forwarded count at
the abort equals k−1; but the surfaced response is an HTTP 500 carrying
only the error string, with no forwarded count. -/
theorem forward_pubfail_aborts (pre : List Plan) (m : Plan) (post : List WireMsg)
    (ce ae : String) :
    (forward_plans_to_approved false ce ae (fun i => decide (pre.length ≤ i))
        (pre.map WireMsg.dict ++ WireMsg.dict m :: post)).response
      = ForwardResponse.httpError 500 ("Failed to forward plans: " ++ ae) ∧
    (∀ n, (forward_plans_to_approved false ce ae (fun i => decide (pre.length ≤ i))
        (pre.map WireMsg.dict ++ WireMsg.dict m :: post)).response
      ≠ ForwardResponse.success n) ∧
    (forward_plans_to_approved false ce ae (fun i => decide (pre.length ≤ i))
        (pre.map WireMsg.dict ++ WireMsg.dict m :: post)).source
      = WireMsg.dict m :: post ∧
    (forward_plans_to_approved false ce ae (fun i => decide (pre.length ≤ i))
        (pre.map WireMsg.dict ++ WireMsg.dict m :: post)).dest
      = pre.map forwardedPlan ∧
    (relayLoop (fun i => decide (pre.length ≤ i))
        (pre.map WireMsg.dict ++ WireMsg.dict m :: post) 0 0).count
      = pre.length := by
  have hok : ∀ j, j < pre.length → (fun i => decide (pre.length ≤ i)) (0 + j) = false := by
    intro j hj
    simp only [Nat.zero_add, decide_eq_false_iff_not]
    omega
  have hfail : (fun i => decide (pre.length ≤ i)) (0 + pre.length) = true := by
    simp
  obtain ⟨hs, hd, hc, ha⟩ :=
    relayLoop_pubFail (fun i => decide (pre.length ≤ i)) m post pre 0 0 hok hfail
  refine ⟨?_, ?_, ?_, ?_, hc⟩
  · simp [forward_plans_to_approved, ha]
  · intro n hn
    rw [show (forward_plans_to_approved false ce ae (fun i => decide (pre.length ≤ i))
        (pre.map WireMsg.dict ++ WireMsg.dict m :: post)).response
      = ForwardResponse.httpError 500 ("Failed to forward plans: " ++ ae) from by
        simp [forward_plans_to_approved, ha]] at hn
    exact ForwardResponse.noConfusion hn
  · simp [forward_plans_to_approved, ha, hs]
  · simp [forward_plans_to_approved, ha, hd]

/-- Witness for the amended C1 at k = 2: one message forwarded, the
second left at the head of the source, HTTP 500 surfaced. -/
theorem forward_pubfail_aborts_witness :
    (forward_plans_to_approved false "conn" "pub"
        (fun i => decide (([ [("id", JVal.num 1)] ] : List Plan).length ≤ i))
        (([ [("id", JVal.num 1)] ] : List Plan).map WireMsg.dict
          ++ WireMsg.dict [("id", JVal.num 2)] :: [])).source
      = WireMsg.dict [("id", JVal.num 2)] :: [] ∧
    (forward_plans_to_approved false "conn" "pub"
        (fun i => decide (([ [("id", JVal.num 1)] ] : List Plan).length ≤ i))
        (([ [("id", JVal.num 1)] ] : List Plan).map WireMsg.dict
          ++ WireMsg.dict [("id", JVal.num 2)] :: [])).dest
      = ([ [("id", JVal.num 1)] ] : List Plan).map forwardedPlan ∧
    (relayLoop (fun i => decide (([ [("id", JVal.num 1)] ] : List Plan).length ≤ i))
        (([ [("id", JVal.num 1)] ] : List Plan).map WireMsg.dict
          ++ WireMsg.dict [("id", JVal.num 2)] :: []) 0 0).count
      = ([ [("id", JVal.num 1)] ] : List Plan).length :=
  ⟨(forward_pubfail_aborts [[("id", JVal.num 1)]] [("id", JVal.num 2)] [] "conn" "pub").2.2.1,
   (forward_pubfail_aborts [[("id", JVal.num 1)]] [("id", JVal.num 2)] [] "conn" "pub").2.2.2.1,
   (forward_pubfail_aborts [[("id", JVal.num 1)]] [("id", JVal.num 2)] [] "conn" "pub").2.2.2.2⟩

/-- C5 counterexample: a pass whose first publish fails exits through the
`except` handler, which raises without reaching `connection.close()` —
this exit leaves the broker connection open, refuting "closed on every
exit path". -/
theorem connection_left_open_counterexample :
    (forward_plans_to_approved false "conn" "pub" (fun _ => true)
        [WireMsg.dict [("id", JVal.num 1)]]).connectionLeftOpen = true := by
  decide

/-- C5 (amended): the broker connection is closed on the normal-completion
exit (first observed emptiness), including passes that skipped malformed
messages; an exit through a publish/ack failure bypasses the close and
leaves the connection open; when opening the connection itself fails there
is no connection to leak. -/
theorem connection_close_on_exit :
    (∀ ce ae pf src, (relayLoop pf src 0 0).aborted = false →
        (forward_plans_to_approved false ce ae pf src).connectionLeftOpen = false) ∧
    (∀ ce ae pf src, (relayLoop pf src 0 0).aborted = true →
        (forward_plans_to_approved false ce ae pf src).connectionLeftOpen = true) ∧
    (∀ ce ae pf src,
        (forward_plans_to_approved true ce ae pf src).connectionLeftOpen = false) := by
  refine ⟨fun ce ae pf src h => ?_, fun ce ae pf src h => ?_, fun ce ae pf src => ?_⟩ <;>
    simp [forward_plans_to_approved, *]

/-- Witness for the amended C5: a clean drain closes the connection, an
aborted pass leaves it open. -/
theorem connection_close_on_exit_witness :
    (forward_plans_to_approved false "conn" "pub" (fun _ => false)
        [WireMsg.dict [("id", JVal.num 1)]]).connectionLeftOpen = false ∧
    (forward_plans_to_approved false "conn" "pub" (fun _ => true)
        [WireMsg.dict [("id", JVal.num 1)]]).connectionLeftOpen = true :=
  ⟨connection_close_on_exit.1 "conn" "pub" (fun _ => false)
      [WireMsg.dict [("id", JVal.num 1)]] (by decide),
   connection_close_on_exit.2.1 "conn" "pub" (fun _ => true)
      [WireMsg.dict [("id", JVal.num 1)]] (by decide)⟩

/-- C7: for every combination of per-target probe outcomes the health
aggregation returns exactly one outcome per configured target, in order;
a successful probe yields `healthy` with the backend's payload and a
probe that times out or errors yields `unhealthy` with the error
description — no probe outcome makes the operation itself fail. -/
theorem health_outcome_per_target (probe : String → ProbeResult) (now : Int) :
    (health_check probe now).agents
      = agentNames.map (fun a => (a, probeOutcome (probe a))) ∧
    (health_check probe now).agents.map Prod.fst = agentNames ∧
    (∀ v, probeOutcome (ProbeResult.ok v) = HealthOutcome.healthy v) ∧
    (∀ e, probeOutcome (ProbeResult.timeout e) = HealthOutcome.unhealthy e) ∧
    (∀ e, probeOutcome (ProbeResult.connError e) = HealthOutcome.unhealthy e) := by
  refine ⟨?_, ?_, fun v => rfl, fun e => rfl, fun e => rfl⟩ <;>
    simp [health_check, agentNames, AGENT_ENDPOINTS]

/-- C9: whatever the agents' probe outcomes, the health response reports
the gateway itself as the constant `"healthy"`, lists exactly one entry
for each of the four configured agents, and carries the timestamp. -/
theorem gateway_reports_healthy (probe : String → ProbeResult) (now : Int) :
    (health_check probe now).gateway = "healthy" ∧
    (health_check probe now).agents.map Prod.fst
      = ["planner", "collaborator", "actor", "learner"] ∧
    (health_check probe now).timestamp = now := by
  refine ⟨rfl, ?_, rfl⟩
  simp [health_check, AGENT_ENDPOINTS]

/-- C8 counterexample: the handler awaits the probes one after another, so
a planner backend that hits its 5-second timeout delays the start of the
collaborator's probe from 0 to 5 seconds — with identical collaborator
latency, only the planner's latency changed — refuting "one slow backend
does not delay the probes of any other backend". -/
theorem health_probe_delay_counterexample :
    probeStart (fun a => if a = "planner" then 7 else 0) agentNames "collaborator" = 5 ∧
    probeStart (fun _ => 0) agentNames "collaborator" = 0 ∧
    probeStart (fun a => if a = "planner" then 7 else 0) agentNames "collaborator"
      ≠ probeStart (fun _ => 0) agentNames "collaborator" := by
  decide

/-- C8 (amended): the aggregator issues the probes sequentially in the
fixed order planner, collaborator, actor, learner — each probe is bounded
by its own 5-second timeout and one agent's outcome depends only on its
own probe, but each probe starts only after every earlier probe has
finished, so a slow backend delays all later probes by its duration. -/
theorem health_probes_sequential (latency : String → ℕ)
    (p₁ p₂ : String → ProbeResult) (n₁ n₂ : Int) (a : String) (h : p₁ a = p₂ a) :
    probeDuration latency a ≤ PROBE_TIMEOUT ∧
    probeStart latency agentNames "planner" = 0 ∧
    probeStart latency agentNames "collaborator" = probeDuration latency "planner" ∧
    probeStart latency agentNames "actor"
      = probeDuration latency "planner" + probeDuration latency "collaborator" ∧
    probeStart latency agentNames "learner"
      = probeDuration latency "planner" + probeDuration latency "collaborator"
        + probeDuration latency "actor" ∧
    (health_check p₁ n₁).agents.lookup a = (health_check p₂ n₂).agents.lookup a := by
  refine ⟨min_le_right _ _, ?_, ?_, ?_, ?_, ?_⟩
  · simp [probeStart, agentNames, AGENT_ENDPOINTS]
  · simp [probeStart, agentNames, AGENT_ENDPOINTS]
  · simp [probeStart, agentNames, AGENT_ENDPOINTS, Nat.add_assoc]
  · simp [probeStart, agentNames, AGENT_ENDPOINTS, Nat.add_assoc]
  · by_cases h₁ : a = "planner"
    · subst h₁; simp [health_check, AGENT_ENDPOINTS, List.lookup, h]
    · by_cases h₂ : a = "collaborator"
      · subst h₂; simp [health_check, AGENT_ENDPOINTS, List.lookup, h₁, h]
      · by_cases h₃ : a = "actor"
        · subst h₃; simp [health_check, AGENT_ENDPOINTS, List.lookup, h₁, h₂, h]
        · by_cases h₄ : a = "learner"
          · subst h₄; simp [health_check, AGENT_ENDPOINTS, List.lookup, h₁, h₂, h₃, h]
          · have b₁ : (a == "planner") = false := beq_eq_false_iff_ne.mpr h₁
            have b₂ : (a == "collaborator") = false := beq_eq_false_iff_ne.mpr h₂
            have b₃ : (a == "actor") = false := beq_eq_false_iff_ne.mpr h₃
            have b₄ : (a == "learner") = false := beq_eq_false_iff_ne.mpr h₄
            simp [health_check, AGENT_ENDPOINTS, List.lookup, b₁, b₂, b₃, b₄]

/-- Witness for the amended C8 at a uniform 2-second latency and probes
agreeing on the planner. -/
theorem health_probes_sequential_witness :
    probeStart (fun _ => 2) agentNames "actor"
      = probeDuration (fun _ => 2) "planner" + probeDuration (fun _ => 2) "collaborator" ∧
    (health_check (fun _ => ProbeResult.timeout "t") 0).agents.lookup "planner"
      = (health_check (fun _ => ProbeResult.timeout "t") 1).agents.lookup "planner" :=
  ⟨(health_probes_sequential (fun _ => 2) (fun _ => ProbeResult.timeout "t")
      (fun _ => ProbeResult.timeout "t") 0 1 "planner" rfl).2.2.2.1,
   (health_probes_sequential (fun _ => 2) (fun _ => ProbeResult.timeout "t")
      (fun _ => ProbeResult.timeout "t") 0 1 "planner" rfl).2.2.2.2.2⟩

end Kbd
